import Mathlib

/-!
Verification of the Real Estate Vaults repository (Anchor program IDL,
TypeScript test suite, and Next.js frontend) against its natural-language
specification.

The file embeds, as executable Lean definitions:
* the frontend amount parser `lamportsBnFromSol` and the PDA seed
  construction (`getVaultPda`, `getPaymentRecordPda`) from the frontend page
  component;
* the declared error table of the on-chain program, from the IDL;
* the balance engine (fundProperty / withdrawMyPayment / withdrawMaster),
  modelled from the specification because the Rust program body
  (programs/real_estate/src/lib.rs) is not part of the provided sources.
-/

namespace RealEstateVaults

/-! ## Frontend amount parser (src/unnamed/part_000, lamportsBnFromSol) -/

/-- Whitespace stripped by the JavaScript trim step of the parser. -/
def isTrimmedSpace (c : Char) : Bool :=
  c = ' ' || c = '\t' || c = '\n' || c = '\r'

/-- Embedding of `raw.trim()`: drop whitespace from both ends. -/
def trimChars (s : List Char) : List Char :=
  ((s.dropWhile isTrimmedSpace).reverse.dropWhile isTrimmedSpace).reverse

/-- Embedding of the regular-expression test `^\d+(\.\d+)?$`: a nonempty
digit run, optionally followed by a dot and another nonempty digit run. -/
def matchesAmount (s : List Char) : Bool :=
  let whole := s.takeWhile Char.isDigit
  let rest := s.dropWhile Char.isDigit
  decide (whole ≠ []) &&
    match rest with
    | [] => true
    | c :: ds => c = '.' && decide (ds ≠ []) && ds.all Char.isDigit

/-- Value of a digit string, as `BigInt(...)` computes it. -/
def digitsToNat (s : List Char) : Nat :=
  s.foldl (fun acc c => 10 * acc + (c.toNat - 48)) 0

/-- `LAMPORTS_PER_SOL`. -/
def LAMPORTS_PER_SOL : Nat := 1000000000

/-- Embedding of `lamportsBnFromSol` on the character list of the input:
trim, reject anything not matching `^\d+(\.\d+)?$`, split at the dot, pad or
truncate the fractional part to nine digits, combine at 10^9 lamports per
SOL, and reject a zero result. -/
def lamportsFromChars (raw : List Char) : Except String Nat :=
  let trimmed := trimChars raw
  if trimmed.isEmpty then .error "Enter an amount in SOL"
  else if !(matchesAmount trimmed) then .error "Use a numeric SOL amount"
  else
    let wholePart := trimmed.takeWhile Char.isDigit
    let decimalPart := (trimmed.dropWhile Char.isDigit).drop 1
    let safeDecimals := (decimalPart ++ List.replicate 9 '0').take 9
    let lamports := digitsToNat wholePart * LAMPORTS_PER_SOL + digitsToNat safeDecimals
    if lamports = 0 then .error "Amount must be greater than zero"
    else .ok lamports

/-- The frontend parser, taking the raw input string. -/
def lamportsBnFromSol (raw : String) : Except String Nat :=
  lamportsFromChars raw.data

/-- Declarative reading of the regular expression `^\d+(\.\d+)?$`: either a
nonempty all-digit string, or a nonempty all-digit whole part and a nonempty
all-digit decimal part separated by one dot. -/
def regexSpec (s : List Char) : Prop :=
  (s ≠ [] ∧ s.all Char.isDigit = true) ∨
  ∃ w d, w ≠ [] ∧ d ≠ [] ∧ w.all Char.isDigit = true ∧ d.all Char.isDigit = true ∧
    s = w ++ '.' :: d

/-- The lamport value the parser assigns to an (already trimmed) accepted
string. -/
def solValue (t : List Char) : Nat :=
  digitsToNat (t.takeWhile Char.isDigit) * LAMPORTS_PER_SOL +
    digitsToNat ((((t.dropWhile Char.isDigit).drop 1) ++ List.replicate 9 '0').take 9)

/-! ## PDA derivation (src/unnamed/part_000, getVaultPda / getPaymentRecordPda)

`PublicKey.findProgramAddressSync` applies a collision-resistant hash to the
concatenated seed bytes; the hash is external library code and is kept
abstract as a function parameter, while the seed construction below is the
repository code. -/

/-- Seed tag bytes of `"property_vault"`. -/
def VAULT_SEED : List Nat :=
  [112, 114, 111, 112, 101, 114, 116, 121, 95, 118, 97, 117, 108, 116]

/-- Seed tag bytes of `"payment"`. -/
def PAYMENT_SEED : List Nat := [112, 97, 121, 109, 101, 110, 116]

/-- Embedding of `propertySeed`: the four little-endian bytes of the u32
property id, as written by `DataView.setUint32(0, propertyId, true)`. -/
def propertySeed (propertyId : Nat) : List Nat :=
  [propertyId % 256, propertyId / 256 % 256, propertyId / 65536 % 256,
    propertyId / 16777216 % 256]

/-- Embedding of `getVaultPda`: hash of the vault seed tag followed by the
little-endian property id. -/
def getVaultPda (hash : List Nat → Nat) (propertyId : Nat) : Nat :=
  hash (VAULT_SEED ++ propertySeed propertyId)

/-- Embedding of `getPaymentRecordPda`: hash of the payment seed tag, the
little-endian property id, and the 32 payer identity bytes. -/
def getPaymentRecordPda (hash : List Nat → Nat) (propertyId : Nat)
    (payer : List Nat) : Nat :=
  hash (PAYMENT_SEED ++ propertySeed propertyId ++ payer)

/-! ## Declared program errors (src/frontend/real_estate.ts, IDL errors) -/

/-- The complete error table declared by the program IDL: code and name of
every custom error the deployed program can raise. -/
def realEstateErrors : List (Nat × String) :=
  [(6000, "alreadyWithdrawn"), (6001, "unauthorized"),
   (6002, "insufficientFunds"), (6003, "vaultInsufficientFunds"),
   (6004, "nameTooLong"), (6005, "imageUrlTooLong"), (6006, "idOverflow")]

/-! ## Balance engine

Modelled from the spec: the Rust instruction bodies of the Anchor program
(programs/real_estate/src/lib.rs) are not among the provided sources; only
the IDL, the test suite and the frontend callers are. The definitions below
follow sections 3, 4.3, 4.4 and 7 of the specification. -/

/-- Modelled from the spec: engine configuration of section 9 — the fixed
rent floor of the host storage model and the single trusted MasterAuthority
identity. Identities are modelled as naturals. -/
structure EngineConfig where
  rentFloor : Nat
  masterAuthority : Nat
deriving DecidableEq

/-- Modelled from the spec: the mutable PaymentRecord fields (amount and
withdrawn flag) of section 3. -/
structure PaymentRecordState where
  amount : Nat
  withdrawn : Bool
deriving DecidableEq

/-- Association-list lookup on (propertyId, payer) keys; the first binding
of a key is its value, absence models a not-yet-created account. -/
def lookupA {α : Type} (k : Nat × Nat) : List ((Nat × Nat) × α) → Option α
  | [] => none
  | e :: rest => if k = e.1 then some e.2 else lookupA k rest

/-- Association-list write: replace the first binding of the key, or append
a new binding when the key is absent. -/
def setA {α : Type} (k : Nat × Nat) (v : α) :
    List ((Nat × Nat) × α) → List ((Nat × Nat) × α)
  | [] => [(k, v)]
  | e :: rest => if k = e.1 then (k, v) :: rest else e :: setA k v rest

/-- Pointwise update of a function-valued store. -/
def upd {β : Type} (f : Nat → β) (k : Nat) (v : β) : Nat → β :=
  fun q => if q = k then v else f q

/-- Modelled from the spec: the ledger account store of section 4.2.
`vaults` maps a propertyId to the vault totalBalance when the vault exists
(the balance includes the rent floor); `records` maps (propertyId, payer)
to the payment record; `wallets` tracks the external balance of each
identity, so that transfers in and out of the engine are observable. -/
structure LedgerState where
  vaults : Nat → Option Nat
  records : List ((Nat × Nat) × PaymentRecordState)
  wallets : Nat → Int

/-- Modelled from the spec: the closed error set of section 7. -/
inductive LedgerError where
  | invalidAmount
  | unauthorized
  | recordNotFound
  | alreadyWithdrawn
  | insufficientFunds
  | vaultInsufficientFunds
deriving DecidableEq

/-- Modelled from the spec, section 4.3: the rent floor is charged to the
payer only when the vault does not exist yet. -/
def rentCharge (cfg : EngineConfig) (st : LedgerState) (propertyId : Nat) : Nat :=
  match st.vaults propertyId with
  | none => cfg.rentFloor
  | some _ => 0

/-- Modelled from the spec, section 4.3: fundProperty. Rejects a zero
amount; creates the vault at the rent floor (charging the payer the floor
once, at creation) when absent; adds the amount to the vault balance and to
the payment record, creating the record at zero when absent and clearing
the withdrawn flag. -/
def fundProperty (cfg : EngineConfig) (st : LedgerState)
    (propertyId payer amount : Nat) : Except LedgerError LedgerState :=
  if amount = 0 then .error .invalidAmount
  else
    let oldBalance := (st.vaults propertyId).getD cfg.rentFloor
    let oldRecord := (lookupA (propertyId, payer) st.records).getD ⟨0, false⟩
    .ok
      { vaults := upd st.vaults propertyId (some (oldBalance + amount))
        records := setA (propertyId, payer)
          ⟨oldRecord.amount + amount, false⟩ st.records
        wallets := upd st.wallets payer
          (st.wallets payer - (amount : Int) - (rentCharge cfg st propertyId : Int)) }

/-- Modelled from the spec, sections 4.3 and 4.4: withdrawMyPayment.
`recordOwner` is the identity embedded in the derived address of the
payment record account the caller passes in; the structural authorization
gate rejects a caller whose identity differs from it. Then the state checks
run in the order RecordNotFound, AlreadyWithdrawn, InsufficientFunds,
VaultInsufficientFunds; on success the amount moves from the vault and the
record to the caller wallet, and the withdrawn flag is set exactly when the
record reaches zero. -/
def withdrawMyPayment (cfg : EngineConfig) (st : LedgerState)
    (propertyId caller recordOwner amount : Nat) :
    Except LedgerError LedgerState :=
  if caller ≠ recordOwner then .error .unauthorized
  else
    match lookupA (propertyId, recordOwner) st.records with
    | none => .error .recordNotFound
    | some record =>
      if record.withdrawn then .error .alreadyWithdrawn
      else if record.amount < amount then .error .insufficientFunds
      else
        match st.vaults propertyId with
        | none => .error .vaultInsufficientFunds
        | some balance =>
          if balance - cfg.rentFloor < amount then .error .vaultInsufficientFunds
          else
            .ok
              { vaults := upd st.vaults propertyId (some (balance - amount))
                records := setA (propertyId, recordOwner)
                  ⟨record.amount - amount,
                    decide (record.amount - amount = 0)⟩ st.records
                wallets := upd st.wallets caller
                  (st.wallets caller + (amount : Int)) }

/-- Modelled from the spec, section 4.3: withdrawMaster. Only the
MasterAuthority may call it; the vault must keep its rent floor; on success
the amount moves from the vault to the MasterAuthority wallet and no
payment record is touched. -/
def withdrawMaster (cfg : EngineConfig) (st : LedgerState)
    (propertyId caller amount : Nat) : Except LedgerError LedgerState :=
  if caller ≠ cfg.masterAuthority then .error .unauthorized
  else
    match st.vaults propertyId with
    | none => .error .vaultInsufficientFunds
    | some balance =>
      if balance - cfg.rentFloor < amount then .error .vaultInsufficientFunds
      else
        .ok
          { vaults := upd st.vaults propertyId (some (balance - amount))
            records := st.records
            wallets := upd st.wallets caller
              (st.wallets caller + (amount : Int)) }

/-! ## Operation sequences and tallies -/

/-- One dispatched call: the three engine operations with their caller
arguments. For a self-withdrawal, `recordOwner` identifies the record
account passed by the caller. -/
inductive Op where
  | fund (propertyId payer amount : Nat)
  | withdrawSelf (propertyId caller recordOwner amount : Nat)
  | master (propertyId caller amount : Nat)

/-- Dispatch one operation to the engine. -/
def execOp (cfg : EngineConfig) (st : LedgerState) : Op → Except LedgerError LedgerState
  | .fund propertyId payer amount => fundProperty cfg st propertyId payer amount
  | .withdrawSelf propertyId caller recordOwner amount =>
      withdrawMyPayment cfg st propertyId caller recordOwner amount
  | .master propertyId caller amount => withdrawMaster cfg st propertyId caller amount

/-- Apply one operation; a rejected operation leaves the state unchanged
(section 7: zero partial state change on failure). -/
def applyOp (cfg : EngineConfig) (st : LedgerState) (op : Op) : LedgerState :=
  match execOp cfg st op with
  | .ok st' => st'
  | .error _ => st

/-- Run a sequence of operations. -/
def runOps (cfg : EngineConfig) (st : LedgerState) (ops : List Op) : LedgerState :=
  ops.foldl (applyOp cfg) st

/-- Running tallies of the successful operations of a trace: lamports funded
and self-withdrawn per (propertyId, payer), and lamports master-withdrawn
per propertyId. -/
structure Tallies where
  funded : Nat × Nat → Nat
  withdrawnT : Nat × Nat → Nat
  masterOut : Nat → Nat

/-- Tally update for one operation: a successful operation adds its amount
to the matching tally, a rejected one adds nothing. -/
def tallyStep (cfg : EngineConfig) (st : LedgerState) (g : Tallies) (op : Op) : Tallies :=
  match op, execOp cfg st op with
  | .fund propertyId payer amount, .ok _ =>
      { g with funded := fun k =>
          if k = (propertyId, payer) then g.funded k + amount else g.funded k }
  | .withdrawSelf propertyId _ recordOwner amount, .ok _ =>
      { g with withdrawnT := fun k =>
          if k = (propertyId, recordOwner) then g.withdrawnT k + amount
          else g.withdrawnT k }
  | .master propertyId _ amount, .ok _ =>
      { g with masterOut := fun q =>
          if q = propertyId then g.masterOut q + amount else g.masterOut q }
  | _, .error _ => g

/-- Run a sequence of operations while accumulating the tallies. -/
def runT (cfg : EngineConfig) (p : LedgerState × Tallies) (ops : List Op) :
    LedgerState × Tallies :=
  ops.foldl (fun q op => (applyOp cfg q.1 op, tallyStep cfg q.1 q.2 op)) p

/-- The empty ledger: no vault, no record, all wallets at zero. -/
def initState : LedgerState :=
  { vaults := fun _ => none, records := [], wallets := fun _ => 0 }

/-- All tallies at zero. -/
def initTallies : Tallies :=
  { funded := fun _ => 0, withdrawnT := fun _ => 0, masterOut := fun _ => 0 }

/-- Sum of record amounts of one property over the record store. -/
def recordsSum (propertyId : Nat) : List ((Nat × Nat) × PaymentRecordState) → Nat
  | [] => 0
  | e :: rest =>
      (if e.1.1 = propertyId then e.2.amount else 0) + recordsSum propertyId rest

/-! ## Conservation invariant -/

/-- The conservation invariant relating a reachable ledger state to the
tallies of the successful operations that produced it: every vault keeps
its rent floor; a vault balance above the floor equals the record sum of
its property minus what the master already swept; a missing vault has no
records and no master withdrawals; and every record amount is the funded
total minus the self-withdrawn total of its (propertyId, payer) pair. -/
def C1Inv (cfg : EngineConfig) (st : LedgerState) (g : Tallies) : Prop :=
  (∀ propertyId b, st.vaults propertyId = some b →
     cfg.rentFloor ≤ b ∧
       b + g.masterOut propertyId = cfg.rentFloor + recordsSum propertyId st.records) ∧
  (∀ propertyId, st.vaults propertyId = none →
     g.masterOut propertyId = 0 ∧ recordsSum propertyId st.records = 0 ∧
       ∀ payer, lookupA (propertyId, payer) st.records = none) ∧
  (∀ propertyId payer r, lookupA (propertyId, payer) st.records = some r →
     r.amount + g.withdrawnT (propertyId, payer) = g.funded (propertyId, payer)) ∧
  (∀ propertyId payer, lookupA (propertyId, payer) st.records = none →
     g.funded (propertyId, payer) = 0 ∧ g.withdrawnT (propertyId, payer) = 0)

/-! ## Example configuration and states used by witnesses -/

/-- Example engine configuration: rent floor 2, master authority 0. -/
def cfgEx : EngineConfig := ⟨2, 0⟩

/-- Example state with one fully drained payment record for (1, 7). -/
def stDrained : LedgerState :=
  { vaults := fun q => if q = 1 then some 2 else none
    records := [((1, 7), ⟨0, true⟩)]
    wallets := fun _ => 0 }

/-! ## Parser lemmas -/

lemma all_takeWhile_eq {p : Char → Bool} {l : List Char} (h : l.all p = true) :
    l.takeWhile p = l ∧ l.dropWhile p = [] := by
  induction l with
  | nil => simp
  | cons c cs ih =>
    simp only [List.all_cons, Bool.and_eq_true] at h
    obtain ⟨ht, hd⟩ := ih h.2
    simp [List.takeWhile_cons, List.dropWhile_cons, h.1, ht, hd]

lemma takeWhile_all (p : Char → Bool) (l : List Char) :
    (l.takeWhile p).all p = true := by
  induction l with
  | nil => simp
  | cons c cs ih =>
    rw [List.takeWhile_cons]
    by_cases hc : p c = true
    · simp [hc, ih]
    · simp [hc]

lemma dropWhile_head_false {p : Char → Bool} {l : List Char} {c : Char}
    {cs : List Char} (h : l.dropWhile p = c :: cs) : p c = false := by
  induction l with
  | nil => simp at h
  | cons a as ih =>
    rw [List.dropWhile_cons] at h
    by_cases hp : p a = true
    · rw [if_pos hp] at h
      exact ih h
    · rw [if_neg hp] at h
      obtain ⟨rfl, rfl⟩ : a = c ∧ as = cs := by
        constructor <;> injection h
      simpa using hp

lemma digits_split {w : List Char} (d : List Char)
    (hw : w.all Char.isDigit = true) :
    (w ++ '.' :: d).takeWhile Char.isDigit = w ∧
      (w ++ '.' :: d).dropWhile Char.isDigit = '.' :: d := by
  induction w with
  | nil =>
    have hdot : Char.isDigit '.' = false := by decide
    simp [List.takeWhile_cons, List.dropWhile_cons, hdot]
  | cons c cs ih =>
    simp only [List.all_cons, Bool.and_eq_true] at hw
    obtain ⟨ht, hd⟩ := ih hw.2
    simp [List.takeWhile_cons, List.dropWhile_cons, hw.1, ht, hd]

lemma matchesAmount_iff {s : List Char} : matchesAmount s = true ↔ regexSpec s := by
  constructor
  · intro h
    simp only [matchesAmount] at h
    rcases hd : s.dropWhile Char.isDigit with _ | ⟨c, ds⟩
    · rw [hd] at h
      simp only [Bool.and_true, decide_eq_true_eq] at h
      have hs : s.takeWhile Char.isDigit = s := by
        have := List.takeWhile_append_dropWhile (p := Char.isDigit) (l := s)
        rw [hd, List.append_nil] at this
        exact this
      exact Or.inl ⟨hs ▸ h, hs ▸ takeWhile_all Char.isDigit s⟩
    · rw [hd] at h
      simp only [Bool.and_eq_true, decide_eq_true_eq] at h
      obtain ⟨hw, ⟨hc, hds⟩, hall⟩ := h
      have hs : s.takeWhile Char.isDigit ++ c :: ds = s := by
        have := List.takeWhile_append_dropWhile (p := Char.isDigit) (l := s)
        rw [hd] at this
        exact this
      refine Or.inr ⟨s.takeWhile Char.isDigit, ds, hw, hds,
        takeWhile_all Char.isDigit s, hall, ?_⟩
      rw [← hc]
      exact hs.symm
  · intro h
    rcases h with ⟨hne, hall⟩ | ⟨w, d, hw, hd, hwall, hdall, rfl⟩
    · obtain ⟨ht, hdr⟩ := all_takeWhile_eq hall
      simp [matchesAmount, ht, hdr, hne]
    · obtain ⟨ht, hdr⟩ := digits_split d hwall
      simp [matchesAmount, ht, hdr, hw, hd, hdall]

lemma regexSpec_ne_nil {s : List Char} (h : regexSpec s) : s ≠ [] := by
  rcases h with ⟨hne, _⟩ | ⟨w, d, _, _, _, _, rfl⟩
  · exact hne
  · simp

lemma lamportsFromChars_ok_iff {raw : List Char} {v : Nat} :
    lamportsFromChars raw = .ok v ↔
      matchesAmount (trimChars raw) = true ∧ v = solValue (trimChars raw) ∧
        solValue (trimChars raw) ≠ 0 := by
  unfold lamportsFromChars
  simp only [solValue]
  split
  · next h1 =>
      have ht : trimChars raw = [] := by
        cases hc : trimChars raw with
        | nil => rfl
        | cons a as => rw [hc] at h1; simp at h1
      simp [ht, matchesAmount]
  · next h1 =>
      split
      · next h2 =>
          have hm : matchesAmount (trimChars raw) = false := by
            rcases hb : matchesAmount (trimChars raw) with _ | _
            · rfl
            · rw [hb] at h2; simp at h2
          simp [hm]
      · next h2 =>
          have hm : matchesAmount (trimChars raw) = true := by
            rcases hb : matchesAmount (trimChars raw) with _ | _
            · rw [hb] at h2; simp at h2
            · rfl
          split
          · next h3 =>
              constructor
              · intro h
                simp at h
              · rintro ⟨-, -, hne⟩
                exact absurd h3 hne
          · next h3 =>
              constructor
              · intro h
                injection h with h
                exact ⟨hm, h.symm, h3⟩
              · rintro ⟨-, rfl, -⟩
                rfl

/-! ## Store lemmas -/

lemma lookupA_setA_self {α : Type} (k : Nat × Nat) (v : α)
    (l : List ((Nat × Nat) × α)) : lookupA k (setA k v l) = some v := by
  induction l with
  | nil => simp [setA, lookupA]
  | cons e rest ih =>
    by_cases hk : k = e.1
    · simp [setA, hk, lookupA]
    · simp [setA, hk, lookupA, ih]

lemma lookupA_setA_ne {α : Type} {k k' : Nat × Nat} (v : α)
    (l : List ((Nat × Nat) × α)) (h : k' ≠ k) :
    lookupA k' (setA k v l) = lookupA k' l := by
  induction l with
  | nil => simp [setA, lookupA, h]
  | cons e rest ih =>
    by_cases hk : k = e.1
    · subst hk
      simp [setA, lookupA, h]
    · by_cases hk' : k' = e.1
      · simp [setA, hk, lookupA, hk']
      · simp [setA, hk, lookupA, hk', ih]

lemma recordsSum_setA_absent {propertyId : Nat} {k : Nat × Nat}
    {v : PaymentRecordState} {l : List ((Nat × Nat) × PaymentRecordState)}
    (h : lookupA k l = none) :
    recordsSum propertyId (setA k v l) =
      recordsSum propertyId l + (if k.1 = propertyId then v.amount else 0) := by
  induction l with
  | nil => simp [setA, recordsSum]
  | cons e rest ih =>
    simp only [lookupA] at h
    by_cases hk : k = e.1
    · simp [hk] at h
    · rw [if_neg hk] at h
      simp only [setA, if_neg hk, recordsSum, ih h]
      omega

lemma recordsSum_setA_present {propertyId : Nat} {k : Nat × Nat}
    {v r : PaymentRecordState} {l : List ((Nat × Nat) × PaymentRecordState)}
    (h : lookupA k l = some r) :
    recordsSum propertyId (setA k v l) + (if k.1 = propertyId then r.amount else 0) =
      recordsSum propertyId l + (if k.1 = propertyId then v.amount else 0) := by
  induction l with
  | nil => simp [lookupA] at h
  | cons e rest ih =>
    simp only [lookupA] at h
    by_cases hk : k = e.1
    · rw [if_pos hk] at h
      injection h with h
      subst h
      simp only [setA, if_pos hk, recordsSum, ← hk]
      omega
    · rw [if_neg hk] at h
      have := ih h
      simp only [setA, if_neg hk, recordsSum]
      omega

/-! ## Success-shape lemmas for the three operations -/

lemma fundProperty_ok {cfg : EngineConfig} {st : LedgerState}
    {propertyId payer amount : Nat} {st' : LedgerState}
    (h : fundProperty cfg st propertyId payer amount = .ok st') :
    amount ≠ 0 ∧
      st' = { vaults := upd st.vaults propertyId
                (some (((st.vaults propertyId).getD cfg.rentFloor) + amount))
              records := setA (propertyId, payer)
                ⟨((lookupA (propertyId, payer) st.records).getD ⟨0, false⟩).amount
                    + amount, false⟩ st.records
              wallets := upd st.wallets payer
                (st.wallets payer - (amount : Int) -
                  (rentCharge cfg st propertyId : Int)) } := by
  unfold fundProperty at h
  split at h
  · exact absurd h (by simp)
  · next hamt =>
      injection h with h
      exact ⟨hamt, h.symm⟩

lemma withdrawMyPayment_ok {cfg : EngineConfig} {st : LedgerState}
    {propertyId caller recordOwner amount : Nat} {st' : LedgerState}
    (h : withdrawMyPayment cfg st propertyId caller recordOwner amount = .ok st') :
    caller = recordOwner ∧
      ∃ r b, lookupA (propertyId, recordOwner) st.records = some r ∧
        r.withdrawn = false ∧ amount ≤ r.amount ∧
        st.vaults propertyId = some b ∧ amount ≤ b - cfg.rentFloor ∧
        st' = { vaults := upd st.vaults propertyId (some (b - amount))
                records := setA (propertyId, recordOwner)
                  ⟨r.amount - amount, decide (r.amount - amount = 0)⟩ st.records
                wallets := upd st.wallets caller
                  (st.wallets caller + (amount : Int)) } := by
  unfold withdrawMyPayment at h
  split at h
  · exact absurd h (by simp)
  · next hc =>
      rw [not_not] at hc
      refine ⟨hc, ?_⟩
      split at h
      · exact absurd h (by simp)
      · next r hr =>
          split at h
          · exact absurd h (by simp)
          · next hw =>
              split at h
              · exact absurd h (by simp)
              · next hra =>
                  split at h
                  · exact absurd h (by simp)
                  · next b hb =>
                      split at h
                      · exact absurd h (by simp)
                      · next hvb =>
                          injection h with h
                          exact ⟨r, b, hr, Bool.not_eq_true _ ▸ hw, Nat.not_lt.mp hra,
                            hb, Nat.not_lt.mp hvb, h.symm⟩

lemma withdrawMaster_ok {cfg : EngineConfig} {st : LedgerState}
    {propertyId caller amount : Nat} {st' : LedgerState}
    (h : withdrawMaster cfg st propertyId caller amount = .ok st') :
    caller = cfg.masterAuthority ∧
      ∃ b, st.vaults propertyId = some b ∧ amount ≤ b - cfg.rentFloor ∧
        st' = { vaults := upd st.vaults propertyId (some (b - amount))
                records := st.records
                wallets := upd st.wallets caller
                  (st.wallets caller + (amount : Int)) } := by
  unfold withdrawMaster at h
  split at h
  · exact absurd h (by simp)
  · next hc =>
      rw [not_not] at hc
      refine ⟨hc, ?_⟩
      split at h
      · exact absurd h (by simp)
      · next b hb =>
          split at h
          · exact absurd h (by simp)
          · next hvb =>
              injection h with h
              exact ⟨b, hb, Nat.not_lt.mp hvb, h.symm⟩

lemma C1Inv_init (cfg : EngineConfig) : C1Inv cfg initState initTallies := by
  refine ⟨?_, ?_, ?_, ?_⟩
  · intro propertyId b hb
    simp [initState] at hb
  · intro propertyId _
    simp [initTallies, initState, recordsSum, lookupA]
  · intro propertyId payer r hr
    simp [initState, lookupA] at hr
  · intro propertyId payer _
    simp [initTallies]

lemma recordsSum_setA_fundVal {propertyId : Nat} {k : Nat × Nat} {amt : Nat}
    {l : List ((Nat × Nat) × PaymentRecordState)} :
    recordsSum propertyId
        (setA k ⟨((lookupA k l).getD ⟨0, false⟩).amount + amt, false⟩ l) =
      recordsSum propertyId l + (if k.1 = propertyId then amt else 0) := by
  cases hl : lookupA k l with
  | none =>
      rw [recordsSum_setA_absent hl]
      simp only [Option.getD_none]
      by_cases hc : k.1 = propertyId <;> simp [hc]
  | some r =>
      have hp := @recordsSum_setA_present propertyId k ⟨r.amount + amt, false⟩ r l hl
      simp only [Option.getD_some]
      by_cases hc : k.1 = propertyId <;> simp [hc] at hp ⊢ <;> omega

lemma recordsSum_setA_withdrawVal {propertyId : Nat} {k : Nat × Nat}
    {amt : Nat} {r : PaymentRecordState} {wflag : Bool}
    {l : List ((Nat × Nat) × PaymentRecordState)}
    (hl : lookupA k l = some r) (hle : amt ≤ r.amount) :
    recordsSum propertyId (setA k ⟨r.amount - amt, wflag⟩ l) +
        (if k.1 = propertyId then amt else 0) = recordsSum propertyId l := by
  have hp := @recordsSum_setA_present propertyId k ⟨r.amount - amt, wflag⟩ r l hl
  by_cases hc : k.1 = propertyId <;> simp [hc] at hp ⊢ <;> omega

lemma C1Inv_fund {cfg : EngineConfig} {st : LedgerState} {g : Tallies}
    {propertyId payer amount : Nat} {st' : LedgerState}
    (h : C1Inv cfg st g)
    (hok : fundProperty cfg st propertyId payer amount = .ok st') :
    C1Inv cfg st'
      { g with funded := fun k =>
          if k = (propertyId, payer) then g.funded k + amount else g.funded k } := by
  obtain ⟨hamt, rfl⟩ := fundProperty_ok hok
  obtain ⟨h1, h2, h3, h4⟩ := h
  refine ⟨?_, ?_, ?_, ?_⟩
  · intro Q b hq
    simp only [upd] at hq
    by_cases hQ : Q = propertyId
    · subst hQ
      rw [if_pos rfl] at hq
      injection hq with hq
      subst hq
      show cfg.rentFloor ≤ _ ∧ _ + g.masterOut Q = cfg.rentFloor + _
      rw [recordsSum_setA_fundVal]
      cases hv : st.vaults Q with
      | none =>
        obtain ⟨hmo, hsum, -⟩ := h2 Q hv
        simp only [Option.getD_none, if_true]
        constructor <;> omega
      | some b0 =>
        obtain ⟨hle, heq⟩ := h1 Q b0 hv
        simp only [Option.getD_some, if_true]
        constructor <;> omega
    · rw [if_neg hQ] at hq
      obtain ⟨hle, heq⟩ := h1 Q b hq
      refine ⟨hle, ?_⟩
      show _ + g.masterOut Q = cfg.rentFloor + _
      rw [recordsSum_setA_fundVal]
      have hkne : propertyId ≠ Q := fun hE => hQ hE.symm
      rw [if_neg hkne]
      omega
  · intro Q hq
    simp only [upd] at hq
    by_cases hQ : Q = propertyId
    · subst hQ
      rw [if_pos rfl] at hq
      exact absurd hq (by simp)
    · rw [if_neg hQ] at hq
      obtain ⟨hmo, hsum, hnone⟩ := h2 Q hq
      have hkne : propertyId ≠ Q := fun hE => hQ hE.symm
      refine ⟨hmo, ?_, ?_⟩
      · show recordsSum Q (setA _ _ _) = 0
        rw [recordsSum_setA_fundVal, if_neg hkne]
        omega
      · intro A'
        rw [lookupA_setA_ne _ _ (fun hk => hQ (congrArg Prod.fst hk))]
        exact hnone A'
  · intro Q A' r' hr'
    by_cases hk : (Q, A') = (propertyId, payer)
    · rw [hk, lookupA_setA_self] at hr'
      injection hr' with hr'
      subst hr'
      show _ + g.withdrawnT (Q, A') = if (Q, A') = _ then _ else _
      rw [hk, if_pos rfl]
      cases hl : lookupA (propertyId, payer) st.records with
      | none =>
        obtain ⟨hf, hw⟩ := h4 propertyId payer hl
        simp only [Option.getD_none]
        omega
      | some r =>
        have heq := h3 propertyId payer r hl
        simp only [Option.getD_some]
        omega
    · rw [lookupA_setA_ne _ _ hk] at hr'
      have heq := h3 Q A' r' hr'
      show _ + g.withdrawnT (Q, A') = if (Q, A') = _ then _ else _
      rw [if_neg hk]
      exact heq
  · intro Q A' hr'
    by_cases hk : (Q, A') = (propertyId, payer)
    · rw [hk, lookupA_setA_self] at hr'
      exact absurd hr' (by simp)
    · rw [lookupA_setA_ne _ _ hk] at hr'
      obtain ⟨hf, hw⟩ := h4 Q A' hr'
      show (if (Q, A') = _ then _ else _) = 0 ∧ g.withdrawnT (Q, A') = 0
      rw [if_neg hk]
      exact ⟨hf, hw⟩

lemma C1Inv_withdrawSelf {cfg : EngineConfig} {st : LedgerState} {g : Tallies}
    {propertyId caller recordOwner amount : Nat} {st' : LedgerState}
    (h : C1Inv cfg st g)
    (hok : withdrawMyPayment cfg st propertyId caller recordOwner amount = .ok st') :
    C1Inv cfg st'
      { g with withdrawnT := fun k =>
          if k = (propertyId, recordOwner) then g.withdrawnT k + amount
          else g.withdrawnT k } := by
  obtain ⟨hco, r, b, hr, hwd, hra, hb, hvb, rfl⟩ := withdrawMyPayment_ok hok
  obtain ⟨h1, h2, h3, h4⟩ := h
  obtain ⟨hfloor, heq⟩ := h1 propertyId b hb
  have hreq := h3 propertyId recordOwner r hr
  refine ⟨?_, ?_, ?_, ?_⟩
  · intro Q b' hq
    simp only [upd] at hq
    by_cases hQ : Q = propertyId
    · subst hQ
      rw [if_pos rfl] at hq
      injection hq with hq
      subst hq
      have hsum := @recordsSum_setA_withdrawVal Q (Q, recordOwner) amount r
        (decide (r.amount - amount = 0)) st.records hr hra
      have hifQ : ((Q, recordOwner).1 = Q) := rfl
      rw [if_pos hifQ] at hsum
      dsimp only
      constructor <;> omega
    · rw [if_neg hQ] at hq
      obtain ⟨hle', heq'⟩ := h1 Q b' hq
      have hsum := @recordsSum_setA_withdrawVal Q (propertyId, recordOwner) amount r
        (decide (r.amount - amount = 0)) st.records hr hra
      have hifQ : ¬ ((propertyId, recordOwner).1 = Q) := fun hE => hQ hE.symm
      rw [if_neg hifQ] at hsum
      dsimp only
      exact ⟨hle', by omega⟩
  · intro Q hq
    simp only [upd] at hq
    by_cases hQ : Q = propertyId
    · subst hQ
      rw [if_pos rfl] at hq
      exact absurd hq (by simp)
    · rw [if_neg hQ] at hq
      obtain ⟨hmo, hsum0, hnone⟩ := h2 Q hq
      have hsum := @recordsSum_setA_withdrawVal Q (propertyId, recordOwner) amount r
        (decide (r.amount - amount = 0)) st.records hr hra
      have hifQ : ¬ ((propertyId, recordOwner).1 = Q) := fun hE => hQ hE.symm
      rw [if_neg hifQ] at hsum
      dsimp only
      refine ⟨hmo, by omega, ?_⟩
      intro A'
      rw [lookupA_setA_ne _ _ (fun hk => hQ (congrArg Prod.fst hk))]
      exact hnone A'
  · intro Q A' r' hr'
    by_cases hk : (Q, A') = (propertyId, recordOwner)
    · rw [hk, lookupA_setA_self] at hr'
      injection hr' with hr'
      subst hr'
      show _ + (if (Q, A') = _ then _ else _) = g.funded (Q, A')
      rw [hk, if_pos rfl]
      dsimp only
      omega
    · rw [lookupA_setA_ne _ _ hk] at hr'
      have heq' := h3 Q A' r' hr'
      show _ + (if (Q, A') = _ then _ else _) = g.funded (Q, A')
      rw [if_neg hk]
      exact heq'
  · intro Q A' hr'
    by_cases hk : (Q, A') = (propertyId, recordOwner)
    · rw [hk, lookupA_setA_self] at hr'
      exact absurd hr' (by simp)
    · rw [lookupA_setA_ne _ _ hk] at hr'
      obtain ⟨hf, hw⟩ := h4 Q A' hr'
      show g.funded (Q, A') = 0 ∧ (if (Q, A') = _ then _ else _) = 0
      rw [if_neg hk]
      exact ⟨hf, hw⟩

lemma C1Inv_master {cfg : EngineConfig} {st : LedgerState} {g : Tallies}
    {propertyId caller amount : Nat} {st' : LedgerState}
    (h : C1Inv cfg st g)
    (hok : withdrawMaster cfg st propertyId caller amount = .ok st') :
    C1Inv cfg st'
      { g with masterOut := fun q =>
          if q = propertyId then g.masterOut q + amount else g.masterOut q } := by
  obtain ⟨hca, b, hb, hvb, rfl⟩ := withdrawMaster_ok hok
  obtain ⟨h1, h2, h3, h4⟩ := h
  obtain ⟨hfloor, heq⟩ := h1 propertyId b hb
  refine ⟨?_, ?_, ?_, ?_⟩
  · intro Q b' hq
    simp only [upd] at hq
    by_cases hQ : Q = propertyId
    · subst hQ
      rw [if_pos rfl] at hq
      injection hq with hq
      subst hq
      show _ ∧ _ + (if Q = Q then _ else _) = _
      rw [if_pos rfl]
      dsimp only
      constructor <;> omega
    · rw [if_neg hQ] at hq
      obtain ⟨hle', heq'⟩ := h1 Q b' hq
      show _ ∧ _ + (if Q = propertyId then _ else _) = _
      rw [if_neg hQ]
      exact ⟨hle', heq'⟩
  · intro Q hq
    simp only [upd] at hq
    by_cases hQ : Q = propertyId
    · subst hQ
      rw [if_pos rfl] at hq
      exact absurd hq (by simp)
    · rw [if_neg hQ] at hq
      obtain ⟨hmo, hsum0, hnone⟩ := h2 Q hq
      show (if Q = propertyId then _ else _) = 0 ∧ _
      rw [if_neg hQ]
      exact ⟨hmo, hsum0, hnone⟩
  · intro Q A' r' hr'
    exact h3 Q A' r' hr'
  · intro Q A' hr'
    exact h4 Q A' hr'

lemma C1Inv_applyOp {cfg : EngineConfig} {st : LedgerState} {g : Tallies}
    (h : C1Inv cfg st g) (op : Op) :
    C1Inv cfg (applyOp cfg st op) (tallyStep cfg st g op) := by
  cases op with
  | fund propertyId payer amount =>
    cases hE : fundProperty cfg st propertyId payer amount with
    | ok st' =>
      simp only [applyOp, tallyStep, execOp, hE]
      exact C1Inv_fund h hE
    | error e =>
      simp only [applyOp, tallyStep, execOp, hE]
      exact h
  | withdrawSelf propertyId caller recordOwner amount =>
    cases hE : withdrawMyPayment cfg st propertyId caller recordOwner amount with
    | ok st' =>
      simp only [applyOp, tallyStep, execOp, hE]
      exact C1Inv_withdrawSelf h hE
    | error e =>
      simp only [applyOp, tallyStep, execOp, hE]
      exact h
  | master propertyId caller amount =>
    cases hE : withdrawMaster cfg st propertyId caller amount with
    | ok st' =>
      simp only [applyOp, tallyStep, execOp, hE]
      exact C1Inv_master h hE
    | error e =>
      simp only [applyOp, tallyStep, execOp, hE]
      exact h

lemma runT_cons (cfg : EngineConfig) (st : LedgerState) (g : Tallies)
    (op : Op) (ops : List Op) :
    runT cfg (st, g) (op :: ops) =
      runT cfg (applyOp cfg st op, tallyStep cfg st g op) ops := rfl

lemma C1Inv_runT {cfg : EngineConfig} {st : LedgerState} {g : Tallies}
    (h : C1Inv cfg st g) (ops : List Op) :
    C1Inv cfg (runT cfg (st, g) ops).1 (runT cfg (st, g) ops).2 := by
  induction ops generalizing st g with
  | nil => exact h
  | cons op rest ih =>
    rw [runT_cons]
    exact ih (C1Inv_applyOp h op)

lemma fundProperty_ok_of_ne {cfg : EngineConfig} {st : LedgerState}
    {propertyId payer amount : Nat} (h : amount ≠ 0) :
    fundProperty cfg st propertyId payer amount =
      .ok { vaults := upd st.vaults propertyId
              (some (((st.vaults propertyId).getD cfg.rentFloor) + amount))
            records := setA (propertyId, payer)
              ⟨((lookupA (propertyId, payer) st.records).getD ⟨0, false⟩).amount
                  + amount, false⟩ st.records
            wallets := upd st.wallets payer
              (st.wallets payer - (amount : Int) -
                (rentCharge cfg st propertyId : Int)) } := by
  unfold fundProperty
  rw [if_neg h]

lemma runOps_cons (cfg : EngineConfig) (st : LedgerState) (op : Op)
    (ops : List Op) :
    runOps cfg st (op :: ops) = runOps cfg (applyOp cfg st op) ops := rfl

lemma fund_run_amount (cfg : EngineConfig) (propertyId payer : Nat)
    (amounts : List Nat) (h : ∀ a ∈ amounts, a ≠ 0) (st : LedgerState) :
    ((lookupA (propertyId, payer)
        (runOps cfg st (amounts.map (Op.fund propertyId payer))).records).getD
        ⟨0, false⟩).amount =
      ((lookupA (propertyId, payer) st.records).getD ⟨0, false⟩).amount +
        amounts.sum ∧
    (amounts ≠ [] →
      ∃ r', lookupA (propertyId, payer)
          (runOps cfg st (amounts.map (Op.fund propertyId payer))).records
            = some r' ∧ r'.withdrawn = false) := by
  induction amounts generalizing st with
  | nil => simp [runOps]
  | cons a rest ih =>
    have ha : a ≠ 0 := h a (by simp)
    have hrest : ∀ x ∈ rest, x ≠ 0 := fun x hx => h x (by simp [hx])
    have hstep : applyOp cfg st (Op.fund propertyId payer a) =
        { vaults := upd st.vaults propertyId
            (some (((st.vaults propertyId).getD cfg.rentFloor) + a))
          records := setA (propertyId, payer)
            ⟨((lookupA (propertyId, payer) st.records).getD ⟨0, false⟩).amount
                + a, false⟩ st.records
          wallets := upd st.wallets payer
            (st.wallets payer - (a : Int) - (rentCharge cfg st propertyId : Int)) } := by
      simp only [applyOp, execOp, fundProperty_ok_of_ne ha]
    obtain ⟨ih1, ih2⟩ := ih hrest (applyOp cfg st (Op.fund propertyId payer a))
    rw [List.map_cons, runOps_cons] at *
    constructor
    · rw [ih1, hstep]
      simp only [lookupA_setA_self, Option.getD_some, List.sum_cons]
      omega
    · intro _
      cases hrest0 : rest with
      | nil =>
        refine ⟨⟨((lookupA (propertyId, payer) st.records).getD ⟨0, false⟩).amount
            + a, false⟩, ?_, rfl⟩
        simp only [List.map_nil, runOps, List.foldl_nil]
        rw [hstep]
        exact lookupA_setA_self _ _ _
      | cons b bs =>
        rw [hrest0] at ih2
        exact ih2 (by simp)

/-! ## Claim theorems -/

/-- C1 counterexample: the claim includes withdrawMaster in the operation
sequence, but a master withdrawal lowers the vault balance without touching
any payment record, so the stated equality between the balance above the
rent floor and the record sum fails: funding 5 and master-withdrawing 3
leaves a vault of 4 (floor 2) against a record sum of 5. -/
theorem claim_C1_counterexample :
    ((runT cfgEx (initState, initTallies)
        [Op.fund 1 7 5, Op.master 1 0 3]).1.vaults 1 = some 4) ∧
    recordsSum 1 (runT cfgEx (initState, initTallies)
        [Op.fund 1 7 5, Op.master 1 0 3]).1.records = 5 ∧
    ¬ (4 - cfgEx.rentFloor = 5) := by
  refine ⟨rfl, rfl, by decide⟩

/-- C1 (amended): after any sequence of fundProperty, withdrawMyPayment and
withdrawMaster operations from the empty ledger, every existing vault keeps
at least the rent floor, its balance above the floor equals the sum of its
PaymentRecord amounts minus the total successfully master-withdrawn for the
property, and for every (propertyId, payer) the record amount equals the
funded total minus the self-withdrawn total. -/
theorem claim_C1 (cfg : EngineConfig) (ops : List Op) (propertyId b : Nat)
    (h : (runT cfg (initState, initTallies) ops).1.vaults propertyId = some b) :
    cfg.rentFloor ≤ b ∧
    b + (runT cfg (initState, initTallies) ops).2.masterOut propertyId =
      cfg.rentFloor +
        recordsSum propertyId (runT cfg (initState, initTallies) ops).1.records ∧
    (∀ payer r,
      lookupA (propertyId, payer)
          (runT cfg (initState, initTallies) ops).1.records = some r →
      r.amount +
          (runT cfg (initState, initTallies) ops).2.withdrawnT (propertyId, payer) =
        (runT cfg (initState, initTallies) ops).2.funded (propertyId, payer)) ∧
    (∀ payer,
      lookupA (propertyId, payer)
          (runT cfg (initState, initTallies) ops).1.records = none →
      (runT cfg (initState, initTallies) ops).2.funded (propertyId, payer) = 0 ∧
      (runT cfg (initState, initTallies) ops).2.withdrawnT (propertyId, payer) = 0) := by
  obtain ⟨h1, h2, h3, h4⟩ := C1Inv_runT (C1Inv_init cfg) ops
  obtain ⟨hle, heq⟩ := h1 propertyId b h
  exact ⟨hle, heq, fun payer r hr => h3 propertyId payer r hr,
    fun payer hn => h4 propertyId payer hn⟩

/-- Witness for C1 after a single funding of 5 on property 1. -/
theorem claim_C1_witness :
    cfgEx.rentFloor ≤ 7 ∧
      7 + (runT cfgEx (initState, initTallies) [Op.fund 1 7 5]).2.masterOut 1 =
        cfgEx.rentFloor +
          recordsSum 1 (runT cfgEx (initState, initTallies) [Op.fund 1 7 5]).1.records :=
  ⟨(claim_C1 cfgEx [Op.fund 1 7 5] 1 7 rfl).1,
    (claim_C1 cfgEx [Op.fund 1 7 5] 1 7 rfl).2.1⟩

/-- C2: withdrawMyPayment by the record owner reports the first failing
condition in the order RecordNotFound, AlreadyWithdrawn, InsufficientFunds,
VaultInsufficientFunds. -/
theorem claim_C2 (cfg : EngineConfig) (st : LedgerState)
    (propertyId payer amount : Nat) :
    (lookupA (propertyId, payer) st.records = none →
      withdrawMyPayment cfg st propertyId payer payer amount
        = .error .recordNotFound) ∧
    (∀ r, lookupA (propertyId, payer) st.records = some r → r.withdrawn = true →
      withdrawMyPayment cfg st propertyId payer payer amount
        = .error .alreadyWithdrawn) ∧
    (∀ r, lookupA (propertyId, payer) st.records = some r → r.withdrawn = false →
      r.amount < amount →
      withdrawMyPayment cfg st propertyId payer payer amount
        = .error .insufficientFunds) ∧
    (∀ r b, lookupA (propertyId, payer) st.records = some r → r.withdrawn = false →
      amount ≤ r.amount → st.vaults propertyId = some b →
      b - cfg.rentFloor < amount →
      withdrawMyPayment cfg st propertyId payer payer amount
        = .error .vaultInsufficientFunds) := by
  have hself : ¬(payer ≠ payer) := fun hne => hne rfl
  refine ⟨?_, ?_, ?_, ?_⟩
  · intro hnone
    unfold withdrawMyPayment
    rw [if_neg hself, hnone]
  · intro r hr hw
    unfold withdrawMyPayment
    rw [if_neg hself, hr]
    simp only [hw, if_true]
  · intro r hr hw hlt
    unfold withdrawMyPayment
    rw [if_neg hself, hr]
    simp only [hw, Bool.false_eq_true, if_false, if_pos hlt]
  · intro r b hr hw hle hb hlt
    unfold withdrawMyPayment
    rw [if_neg hself, hr]
    simp only [hw, Bool.false_eq_true, if_false, if_neg (Nat.not_lt.mpr hle), hb,
      if_pos hlt]

/-- Witness for C2: withdrawing against a missing record reports
RecordNotFound. -/
theorem claim_C2_witness :
    withdrawMyPayment cfgEx initState 1 7 7 3 = .error .recordNotFound :=
  (claim_C2 cfgEx initState 1 7 3).1 rfl

/-- C3: a withdrawal attempt by a caller different from the identity bound
into the record address fails with the authorization error and leaves the
whole state, in particular the record of the true owner, unchanged. -/
theorem claim_C3 (cfg : EngineConfig) (st : LedgerState)
    (propertyId payerA payerB amount : Nat) (h : payerB ≠ payerA) :
    withdrawMyPayment cfg st propertyId payerB payerA amount
      = .error .unauthorized ∧
    applyOp cfg st (Op.withdrawSelf propertyId payerB payerA amount) = st := by
  have hmain : withdrawMyPayment cfg st propertyId payerB payerA amount
      = .error .unauthorized := by
    unfold withdrawMyPayment
    rw [if_pos h]
  exact ⟨hmain, by simp only [applyOp, execOp, hmain]⟩

/-- Witness for C3: identity 9 cannot withdraw against the record of
identity 7. -/
theorem claim_C3_witness :
    withdrawMyPayment cfgEx stDrained 1 9 7 1 = .error .unauthorized ∧
      applyOp cfgEx stDrained (Op.withdrawSelf 1 9 7 1) = stDrained :=
  claim_C3 cfgEx stDrained 1 7 9 1 (by decide)

/-- C4 counterexample: the on-chain program cannot fail with InvalidAmount —
its complete declared error table has no error of that name — and the only
amount guard in the repository is the frontend parser, which throws a plain
error for a zero amount before any instruction is built. -/
theorem claim_C4_counterexample :
    ("invalidAmount" ∉ realEstateErrors.map Prod.snd) ∧
    ("InvalidAmount" ∉ realEstateErrors.map Prod.snd) ∧
    lamportsBnFromSol "0" = .error "Amount must be greater than zero" := by
  refine ⟨by decide, by decide, rfl⟩

/-- C4 (amended): the program declares no InvalidAmount error, so a
fundProperty instruction cannot fail with it; the amount > 0 rule is
enforced client side, where lamportsBnFromSol never returns a value below
one lamport, so every UI-built instruction carries a positive amount. -/
theorem claim_C4 :
    ("invalidAmount" ∉ realEstateErrors.map Prod.snd) ∧
    ∀ raw v, lamportsBnFromSol raw = .ok v → 1 ≤ v := by
  refine ⟨by decide, ?_⟩
  intro raw v h
  obtain ⟨-, hv, hne⟩ := lamportsFromChars_ok_iff.mp h
  omega

/-- Witness for C4: the parser accepts "0.1" and yields a positive amount. -/
theorem claim_C4_witness :
    lamportsBnFromSol "0.1" = .ok 100000000 ∧ 1 ≤ (100000000 : Nat) :=
  ⟨rfl, claim_C4.2 "0.1" 100000000 rfl⟩

/-- C5: on a record already marked withdrawn with a zero amount, a further
owner withdrawal fails with AlreadyWithdrawn; a subsequent successful
funding call on the same (propertyId, payer) reopens the record, resetting
withdrawn to false. -/
theorem claim_C5 (cfg : EngineConfig) (st : LedgerState)
    (propertyId payer amount : Nat) :
    (∀ r, lookupA (propertyId, payer) st.records = some r →
      r.withdrawn = true → r.amount = 0 →
      withdrawMyPayment cfg st propertyId payer payer amount
        = .error .alreadyWithdrawn) ∧
    (∀ amt' st', amt' ≠ 0 → fundProperty cfg st propertyId payer amt' = .ok st' →
      lookupA (propertyId, payer) st'.records =
        some ⟨((lookupA (propertyId, payer) st.records).getD ⟨0, false⟩).amount
            + amt', false⟩) := by
  constructor
  · intro r hr hw _
    have hself : ¬(payer ≠ payer) := fun hne => hne rfl
    unfold withdrawMyPayment
    rw [if_neg hself, hr]
    simp only [hw, if_true]
  · intro amt' st' hamt hok
    obtain ⟨-, rfl⟩ := fundProperty_ok hok
    exact lookupA_setA_self _ _ _

/-- Witness for C5: the drained record of (1, 7) rejects a further
withdrawal, and funding 4 reopens it at amount 4. -/
theorem claim_C5_witness :
    withdrawMyPayment cfgEx stDrained 1 7 7 1 = .error .alreadyWithdrawn ∧
      lookupA (1, 7) (runOps cfgEx stDrained [Op.fund 1 7 4]).records
        = some ⟨4, false⟩ :=
  ⟨(claim_C5 cfgEx stDrained 1 7 1).1 ⟨0, true⟩ rfl rfl rfl,
    (claim_C5 cfgEx stDrained 1 7 1).2 4
      (runOps cfgEx stDrained [Op.fund 1 7 4]) (by decide) rfl⟩

/-- C6: a nonzero funding always succeeds; it creates the vault at the rent
floor when absent (charging the payer floor plus amount exactly then, and
only the amount otherwise), adds the amount to the vault balance and to the
record (created at zero when absent, withdrawn false), and repeated nonzero
fundings accumulate the record amount to the sum of all deposits. -/
theorem claim_C6 (cfg : EngineConfig) (st : LedgerState)
    (propertyId payer amount : Nat) (h : amount ≠ 0) :
    (∃ st', fundProperty cfg st propertyId payer amount = .ok st' ∧
      st'.vaults propertyId =
        some ((st.vaults propertyId).getD cfg.rentFloor + amount) ∧
      (st.vaults propertyId = none →
        st'.vaults propertyId = some (cfg.rentFloor + amount) ∧
        st'.wallets payer = st.wallets payer - amount - cfg.rentFloor) ∧
      (∀ b, st.vaults propertyId = some b →
        st'.vaults propertyId = some (b + amount) ∧
        st'.wallets payer = st.wallets payer - amount) ∧
      lookupA (propertyId, payer) st'.records =
        some ⟨((lookupA (propertyId, payer) st.records).getD ⟨0, false⟩).amount
            + amount, false⟩) ∧
    (∀ amounts : List Nat, (∀ a ∈ amounts, a ≠ 0) →
      ∃ r', lookupA (propertyId, payer)
          (runOps cfg st ((amount :: amounts).map (Op.fund propertyId payer))).records
            = some r' ∧ r'.withdrawn = false ∧
        r'.amount =
          ((lookupA (propertyId, payer) st.records).getD ⟨0, false⟩).amount +
            (amount :: amounts).sum) := by
  constructor
  · refine ⟨_, fundProperty_ok_of_ne h, ?_, ?_, ?_, ?_⟩
    · simp [upd]
    · intro hv
      rw [hv]
      refine ⟨by simp [upd], ?_⟩
      simp [upd, rentCharge, hv]
    · intro b hv
      rw [hv]
      refine ⟨by simp [upd], ?_⟩
      simp [upd, rentCharge, hv]
    · exact lookupA_setA_self _ _ _
  · intro amounts hall
    have hcons : ∀ a ∈ amount :: amounts, a ≠ 0 := by
      intro a ha
      rcases List.mem_cons.mp ha with rfl | hmem
      · exact h
      · exact hall a hmem
    obtain ⟨h1, h2⟩ := fund_run_amount cfg propertyId payer (amount :: amounts) hcons st
    obtain ⟨r', hr', hw'⟩ := h2 (by simp)
    refine ⟨r', hr', hw', ?_⟩
    rw [hr'] at h1
    simpa using h1

/-- Witness for C6: funding 5 on the empty ledger makes a vault of 7 (floor
2 plus deposit) and a record of 5. -/
theorem claim_C6_witness :
    (runOps cfgEx initState [Op.fund 1 7 5]).vaults 1 = some 7 ∧
    lookupA (1, 7) (runOps cfgEx initState [Op.fund 1 7 5]).records
      = some ⟨5, false⟩ := by
  obtain ⟨st', hok, hv, -, -, hrec⟩ := (claim_C6 cfgEx initState 1 7 5 (by decide)).1
  have hrun : runOps cfgEx initState [Op.fund 1 7 5] = st' := by
    simp only [runOps, List.foldl_cons, List.foldl_nil, applyOp, execOp, hok]
  rw [hrun]
  constructor
  · rw [hv]
    rfl
  · rw [hrec]
    rfl

/-- C7: a successful owner withdrawal subtracts the amount from the vault
and the record, credits the amount to the payer wallet, and sets withdrawn
exactly when the record reaches zero, staying false after a partial
withdrawal. -/
theorem claim_C7 (cfg : EngineConfig) (st : LedgerState)
    (propertyId payer amount : Nat) (r : PaymentRecordState) (b : Nat)
    (hr : lookupA (propertyId, payer) st.records = some r)
    (hw : r.withdrawn = false) (hra : amount ≤ r.amount)
    (hb : st.vaults propertyId = some b) (hvb : amount ≤ b - cfg.rentFloor) :
    ∃ st', withdrawMyPayment cfg st propertyId payer payer amount = .ok st' ∧
      st'.vaults propertyId = some (b - amount) ∧
      lookupA (propertyId, payer) st'.records =
        some ⟨r.amount - amount, decide (r.amount - amount = 0)⟩ ∧
      st'.wallets payer = st.wallets payer + amount ∧
      (r.amount - amount ≠ 0 →
        lookupA (propertyId, payer) st'.records
          = some ⟨r.amount - amount, false⟩) := by
  have hself : ¬(payer ≠ payer) := fun hne => hne rfl
  have hok : withdrawMyPayment cfg st propertyId payer payer amount =
      .ok { vaults := upd st.vaults propertyId (some (b - amount))
            records := setA (propertyId, payer)
              ⟨r.amount - amount, decide (r.amount - amount = 0)⟩ st.records
            wallets := upd st.wallets payer
              (st.wallets payer + (amount : Int)) } := by
    unfold withdrawMyPayment
    rw [if_neg hself, hr]
    simp only [hw, Bool.false_eq_true, if_false, if_neg (Nat.not_lt.mpr hra), hb,
      if_neg (Nat.not_lt.mpr hvb)]
  refine ⟨_, hok, ?_, ?_, ?_, ?_⟩
  · simp [upd]
  · exact lookupA_setA_self _ _ _
  · simp [upd]
  · intro hne
    rw [lookupA_setA_self]
    simp [hne]

/-- Witness for C7: withdrawing 3 of a 5-lamport record leaves vault 4 and
record 2 with withdrawn still false. -/
theorem claim_C7_witness :
    (applyOp cfgEx (runOps cfgEx initState [Op.fund 1 7 5])
        (Op.withdrawSelf 1 7 7 3)).vaults 1 = some 4 ∧
    lookupA (1, 7) (applyOp cfgEx (runOps cfgEx initState [Op.fund 1 7 5])
        (Op.withdrawSelf 1 7 7 3)).records = some ⟨2, false⟩ := by
  obtain ⟨st', hok, hv, hrec, -, -⟩ :=
    claim_C7 cfgEx (runOps cfgEx initState [Op.fund 1 7 5]) 1 7 3 ⟨5, false⟩ 7
      rfl rfl (by decide) rfl (by decide)
  have happ : applyOp cfgEx (runOps cfgEx initState [Op.fund 1 7 5])
      (Op.withdrawSelf 1 7 7 3) = st' := by
    simp only [applyOp, execOp, hok]
  rw [happ]
  constructor
  · rw [hv]
  · rw [hrec]
    rfl

/-- C8: withdrawMaster fails with Unauthorized for any caller other than
the MasterAuthority and with VaultInsufficientFunds when the amount exceeds
the balance above the rent floor; on success only the vault of the given
property and the wallet of the MasterAuthority change, and the payment
record store is neither read (the result is the same for every record
store) nor modified. -/
theorem claim_C8 (cfg : EngineConfig) (st : LedgerState)
    (propertyId caller amount b : Nat) :
    (caller ≠ cfg.masterAuthority →
      withdrawMaster cfg st propertyId caller amount = .error .unauthorized) ∧
    (caller = cfg.masterAuthority → st.vaults propertyId = some b →
      b - cfg.rentFloor < amount →
      withdrawMaster cfg st propertyId caller amount
        = .error .vaultInsufficientFunds) ∧
    (caller = cfg.masterAuthority → st.vaults propertyId = some b →
      amount ≤ b - cfg.rentFloor →
      ∃ st', withdrawMaster cfg st propertyId caller amount = .ok st' ∧
        st'.records = st.records ∧
        st'.vaults propertyId = some (b - amount) ∧
        (∀ q, q ≠ propertyId → st'.vaults q = st.vaults q) ∧
        st'.wallets caller = st.wallets caller + amount ∧
        (∀ w, w ≠ caller → st'.wallets w = st.wallets w)) ∧
    (∀ rs, withdrawMaster cfg { st with records := rs } propertyId caller amount =
      (withdrawMaster cfg st propertyId caller amount).map
        (fun s => { s with records := rs })) := by
  refine ⟨?_, ?_, ?_, ?_⟩
  · intro hne
    unfold withdrawMaster
    rw [if_pos hne]
  · intro hca hb hlt
    unfold withdrawMaster
    rw [if_neg (fun hk => hk hca), hb]
    dsimp only
    rw [if_pos hlt]
  · intro hca hb hle
    have hok : withdrawMaster cfg st propertyId caller amount =
        .ok { vaults := upd st.vaults propertyId (some (b - amount))
              records := st.records
              wallets := upd st.wallets caller
                (st.wallets caller + (amount : Int)) } := by
      unfold withdrawMaster
      rw [if_neg (fun hk => hk hca), hb]
      dsimp only
      rw [if_neg (Nat.not_lt.mpr hle)]
    refine ⟨_, hok, rfl, ?_, ?_, ?_, ?_⟩
    · simp [upd]
    · intro q hq
      simp [upd, hq]
    · simp [upd]
    · intro w hw
      simp [upd, hw]
  · intro rs
    unfold withdrawMaster
    by_cases hca : caller ≠ cfg.masterAuthority
    · rw [if_pos hca, if_pos hca]
      rfl
    · rw [if_neg hca, if_neg hca]
      show (match st.vaults propertyId with
        | none => Except.error LedgerError.vaultInsufficientFunds
        | some balance => _) = _
      cases hb : st.vaults propertyId with
      | none => rfl
      | some balance =>
        dsimp only
        by_cases hlt : balance - cfg.rentFloor < amount
        · rw [if_pos hlt, if_pos hlt]
          rfl
        · rw [if_neg hlt, if_neg hlt]
          rfl

/-- Witness for C8: a non-master caller is rejected, and a master sweep of
3 leaves records untouched. -/
theorem claim_C8_witness :
    withdrawMaster cfgEx (runOps cfgEx initState [Op.fund 1 7 5]) 1 9 3
      = .error .unauthorized := by
  exact (claim_C8 cfgEx (runOps cfgEx initState [Op.fund 1 7 5]) 1 9 3 7).1
    (by decide)

/-- C9: PDA derivation is a pure function of its inputs — repeated
derivation yields the same address — and, for any injective hash (the
collision-resistance abstraction of findProgramAddressSync), two distinct
payer identities derive distinct payment-record addresses for the same
property. -/
theorem claim_C9 (hash : List Nat → Nat) (propertyId : Nat)
    (payerA payerB : List Nat) (hinj : Function.Injective hash)
    (hne : payerA ≠ payerB) :
    getVaultPda hash propertyId = getVaultPda hash propertyId ∧
    getPaymentRecordPda hash propertyId payerA
      = getPaymentRecordPda hash propertyId payerA ∧
    getPaymentRecordPda hash propertyId payerA
      ≠ getPaymentRecordPda hash propertyId payerB := by
  refine ⟨rfl, rfl, ?_⟩
  intro hEq
  exact hne (List.append_cancel_left (hinj hEq))

/-- Witness for C9 with an explicit injective hash (the canonical encoding
of a list of naturals) and two one-byte identities. -/
theorem claim_C9_witness :
    getVaultPda Encodable.encode 1 = getVaultPda Encodable.encode 1 ∧
    getPaymentRecordPda Encodable.encode 1 [0]
      = getPaymentRecordPda Encodable.encode 1 [0] ∧
    getPaymentRecordPda Encodable.encode 1 [0]
      ≠ getPaymentRecordPda Encodable.encode 1 [1] :=
  claim_C9 Encodable.encode 1 [0] [1] Encodable.encode_injective (by decide)

/-- C10: the frontend amount parser accepts exactly the trimmed inputs
matching the decimal pattern, truncates fractional digits beyond the ninth,
converts at 10^9 lamports per SOL, and never returns a value below one
lamport. -/
theorem claim_C10 (raw : String) :
    (∀ v, lamportsBnFromSol raw = .ok v →
      regexSpec (trimChars raw.data) ∧ v = solValue (trimChars raw.data) ∧ 1 ≤ v) ∧
    (regexSpec (trimChars raw.data) → 1 ≤ solValue (trimChars raw.data) →
      lamportsBnFromSol raw = .ok (solValue (trimChars raw.data))) ∧
    (∀ w d, w.all Char.isDigit = true → 9 ≤ d.length →
      solValue (w ++ '.' :: d) =
        digitsToNat w * LAMPORTS_PER_SOL + digitsToNat (d.take 9)) := by
  refine ⟨?_, ?_, ?_⟩
  · intro v h
    obtain ⟨hm, hv, hne⟩ := lamportsFromChars_ok_iff.mp h
    exact ⟨matchesAmount_iff.mp hm, hv, by omega⟩
  · intro hr hv
    exact lamportsFromChars_ok_iff.mpr ⟨matchesAmount_iff.mpr hr, rfl, by omega⟩
  · intro w d hwall hlen
    obtain ⟨ht, hd⟩ := digits_split d hwall
    unfold solValue
    rw [ht, hd]
    have hdrop : ('.' :: d).drop 1 = d := rfl
    rw [hdrop, List.take_append_eq_append_take]
    have h9 : 9 - d.length = 0 := by omega
    simp [h9]

/-- Witness for C10 at the input "1.5". -/
theorem claim_C10_witness :
    regexSpec (trimChars ("1.5".data)) ∧
      (1500000000 : Nat) = solValue (trimChars ("1.5".data)) ∧
      1 ≤ (1500000000 : Nat) :=
  (claim_C10 "1.5").1 1500000000 rfl

end RealEstateVaults
